import Mathlib

/-!
# Verification of the copilot deterministic rules engine and pipeline

Shallow embedding of the core of the repository:

* `backend/rules_engine/evaluator.py` — `RulesEngine._evaluate_condition`,
  `RulesEngine._evaluate_rule`, `RulesEngine.evaluate`;
* `backend/main.py` / `api/index.py` — the context-enrichment merge loop and
  the `analyze_conversation` pipeline state machine.

JSON scalar values (the only values the rules engine handles: strings,
numbers, booleans, null) are modelled by `Value`, with numbers as exact
rationals.  Python's dynamically-typed `==`, `<`, `>` are modelled by
`pyEq`, `pyLt`, `pyGt`; the latter two can raise `TypeError` (modelled with
`Except Unit`), exactly as CPython does for e.g. `str < int`.  Dictionaries
are modelled as association lists in insertion order, with `ctxGet`
mirroring `dict.get(key)` (absent key ↦ `None`).
-/

namespace Copilot

deriving instance DecidableEq for Except

/-- A JSON scalar value as handled by the Python code: `None`, `bool`,
`int`/`float` (modelled exactly as a rational), or `str`. -/
inductive Value where
  | vnull : Value
  | vbool : Bool → Value
  | vnum : ℚ → Value
  | vstr : String → Value
deriving DecidableEq, Repr

/-- Numeric view of a value: Python treats `bool` as the ints 0/1 for `==`,
`<`, `>`; `int`/`float` are numbers; `None` and `str` are not numeric. -/
def toNum? : Value → Option ℚ
  | Value.vbool b => some (if b then 1 else 0)
  | Value.vnum q => some q
  | _ => none

/-- Python `==` on scalar values: numeric types (including `bool`) compare
numerically, strings compare as strings, `None` equals only `None`, and any
other cross-type comparison is `False`.  Never raises. -/
def pyEq (a b : Value) : Bool :=
  match toNum? a, toNum? b with
  | some p, some q => decide (p = q)
  | _, _ =>
    match a, b with
    | Value.vnull, Value.vnull => true
    | Value.vstr s, Value.vstr t => decide (s = t)
    | _, _ => false

/-- Python `<` on scalar values: defined for numeric/numeric (with `bool` as
0/1) and string/string; every other combination raises `TypeError`. -/
def pyLt (a b : Value) : Except Unit Bool :=
  match toNum? a, toNum? b with
  | some p, some q => Except.ok (decide (p < q))
  | _, _ =>
    match a, b with
    | Value.vstr s, Value.vstr t => Except.ok (decide (s < t))
    | _, _ => Except.error ()

/-- Python `>` on scalar values; same domain as `pyLt`. -/
def pyGt (a b : Value) : Except Unit Bool :=
  match toNum? a, toNum? b with
  | some p, some q => Except.ok (decide (q < p))
  | _, _ =>
    match a, b with
    | Value.vstr s, Value.vstr t => Except.ok (decide (t < s))
    | _, _ => Except.error ()

/-- A rule condition (`evaluator.py` line 31): either a literal for direct
equality, or a range object that may carry `"min"` and/or `"max"` keys. -/
inductive Condition where
  | lit : Value → Condition
  | range : Option Value → Option Value → Condition
deriving DecidableEq, Repr

/-- A rule's `then` clause: the four base keys (each optional, as the code
reads them with `dict.get`) plus any auxiliary keys (`extra`, an open
key→value table such as `allow_stop_0euros`). -/
structure ThenClause where
  decision : Option String := none
  stop_allowed : Option Value := none
  allowed_actions : Option (List String) := none
  reason : Option String := none
  extra : List (String × Value) := []
deriving DecidableEq, Repr

/-- A business rule: `id` and `priority` are read with `dict.get` (defaults
`"unknown"` and `0`), `whenConds` is the `when` mapping in declaration
order, `thenClause` is the `then` clause. -/
structure Rule where
  id : Option String := none
  priority : Option Int := none
  whenConds : List (String × Condition) := []
  thenClause : ThenClause := {}
deriving DecidableEq, Repr

/-- `missing_info_behavior` of a rule file: `status` and the per-field
question table. -/
structure MissingInfoBehavior where
  status : Option String := none
  questions : List (String × String) := []
deriving DecidableEq, Repr

/-- A loaded rule file (`rules_data` in `evaluator.py`). -/
structure RuleSet where
  required_fields : List String := []
  missing_info_behavior : MissingInfoBehavior := {}
  rules : List Rule := []
deriving DecidableEq, Repr

/-- The customer context: a JSON object, field name → scalar value. -/
abbrev Ctx := List (String × Value)

/-- `customer_context.get(field)`: absent keys read as `None` (`vnull`),
exactly like Python's `dict.get`. -/
def ctxGet (ctx : Ctx) (field : String) : Value :=
  (ctx.lookup field).getD Value.vnull

/-- `rule.get("priority", 0)` (`evaluator.py` line 121). -/
def priorityOf (r : Rule) : Int :=
  r.priority.getD 0

/-- The missing-value test of the required-field gate (`evaluator.py`
line 109): `None`, `""`, `"desconocido"` or `"null"`. -/
def isMissingValue (v : Value) : Bool :=
  v == Value.vnull || v == Value.vstr "" || v == Value.vstr "desconocido" ||
    v == Value.vstr "null"

/-- Helper for the `"max"` branch of `_evaluate_condition` (lines 60-64):
fail if `max` is present and `value > max`, otherwise pass. -/
def checkMax (mx : Option Value) (v : Value) : Except Unit Bool :=
  match mx with
  | some m =>
    match pyGt v m with
    | Except.error e => Except.error e
    | Except.ok true => Except.ok false
    | Except.ok false => Except.ok true
  | none => Except.ok true

/-- `RulesEngine._evaluate_condition` (lines 31-64): `None` context value
fails; a literal condition is Python `==`; a range object fails when
`value < min` or `value > max` (either comparison may raise `TypeError`). -/
def evaluateCondition (condition : Condition) (context_value : Value) :
    Except Unit Bool :=
  if context_value = Value.vnull then Except.ok false
  else
    match condition with
    | Condition.lit v => Except.ok (pyEq v context_value)
    | Condition.range mn mx =>
      match mn with
      | some m =>
        match pyLt context_value m with
        | Except.error e => Except.error e
        | Except.ok true => Except.ok false
        | Except.ok false => checkMax mx context_value
      | none => checkMax mx context_value

/-- The conjunction loop of `RulesEngine._evaluate_rule` (lines 78-86):
all `when` conditions must hold; evaluation stops at the first failing
condition, and a `TypeError` from a condition propagates. -/
def whenMatches (ctx : Ctx) : List (String × Condition) → Except Unit Bool
  | [] => Except.ok true
  | (field, cond) :: rest =>
    match evaluateCondition cond (ctxGet ctx field) with
    | Except.error e => Except.error e
    | Except.ok false => Except.ok false
    | Except.ok true => whenMatches ctx rest

/-- `RulesEngine._evaluate_rule` (line 66). -/
def ruleMatches (ctx : Ctx) (r : Rule) : Except Unit Bool :=
  whenMatches ctx r.whenConds

/-- Insert a rule into a priority-descending sorted list, after every rule
of strictly greater priority and before rules of equal or smaller priority
(so earlier-declared rules stay first on ties). -/
def insertRule (r : Rule) : List Rule → List Rule
  | [] => [r]
  | s :: rest =>
    if priorityOf r < priorityOf s then s :: insertRule r rest
    else r :: s :: rest

/-- `sorted(rules, key=priority, reverse=True)` (lines 119-123): Python's
sort is stable and descending here; `sortRules` is the stable descending
insertion sort, which computes the same list. -/
def sortRules : List Rule → List Rule
  | [] => []
  | r :: rest => insertRule r (sortRules rest)

/-- The matching loop of `evaluate` (lines 126-129): collect, in sorted
order, every rule whose conditions all hold; an exception from any rule
evaluation propagates. -/
def filterMatched (ctx : Ctx) : List Rule → Except Unit (List Rule)
  | [] => Except.ok []
  | r :: rest =>
    match ruleMatches ctx r with
    | Except.error e => Except.error e
    | Except.ok b =>
      match filterMatched ctx rest with
      | Except.error e => Except.error e
      | Except.ok m => Except.ok (if b then r :: m else m)

/-- The matched-rule list of `evaluate`: sort by priority descending
(stable), then keep the rules whose `when` conditions hold. -/
def matchedRules (rs : RuleSet) (ctx : Ctx) : Except Unit (List Rule) :=
  filterMatched ctx (sortRules rs.rules)

/-- The decision dictionary returned by `evaluate`, in its two shapes:
the NEED_INFO shape (lines 110-115) and the RECOMMENDATION shape
(lines 133-139 / 146-158, with the open `extra` table for merged flags). -/
inductive Decision where
  | needInfo : String → String → Option String → Decision
  | recommendation : String → Value → List String → String →
      List (String × Value) → Decision
deriving DecidableEq, Repr

/-- The `"status"` entry of a decision dictionary. -/
def Decision.status : Decision → String
  | Decision.needInfo _ _ _ => "NEED_INFO"
  | Decision.recommendation _ _ _ _ _ => "RECOMMENDATION"

/-- Python dict assignment `d[k] = v` on an insertion-ordered table:
replace the value at an existing key in place, else append the new key. -/
def setKey : List (String × Value) → String → Value → List (String × Value)
  | [], k, v => [(k, v)]
  | (k', v') :: rest, k, v =>
    if k' = k then (k, v) :: rest else (k', v') :: setKey rest k v

/-- `then_clause` lookup of the one merged auxiliary flag
(`"allow_stop_0euros" in then_clause`, line 157). -/
def flagOf (r : Rule) : Option Value :=
  r.thenClause.extra.lookup "allow_stop_0euros"

/-- The merge pass of `evaluate` (lines 154-158): for every matched rule,
in sorted order, copy its `allow_stop_0euros` value (when present) into the
decision, each assignment overwriting the previous one. -/
def mergeFlags (m : List Rule) (d : Decision) : Decision :=
  m.foldl
    (fun d r =>
      match flagOf r with
      | some v =>
        match d with
        | Decision.recommendation dec sa aa rsn ex =>
          Decision.recommendation dec sa aa rsn (setKey ex "allow_stop_0euros" v)
        | other => other
      | none => d)
    d

/-- `RulesEngine.evaluate` (lines 88-160): required-field gate, then
stable-descending sort, matching, the no-match sentinel, the base decision
from the highest-priority matched rule, and the flag-merge pass. -/
def evaluate (rs : RuleSet) (ctx : Ctx) : Except Unit Decision :=
  match rs.required_fields.find? (fun f => isMissingValue (ctxGet ctx f)) with
  | some f =>
    Except.ok (Decision.needInfo f
      (rs.missing_info_behavior.status.getD "NEED_INFO")
      (rs.missing_info_behavior.questions.lookup f))
  | none =>
    match matchedRules rs ctx with
    | Except.error e => Except.error e
    | Except.ok [] =>
      Except.ok (Decision.recommendation "no_match" Value.vnull []
        "no_rules_matched" [])
    | Except.ok (primary :: tl) =>
      Except.ok (mergeFlags (primary :: tl)
        (Decision.recommendation
          (primary.thenClause.decision.getD "unknown")
          (primary.thenClause.stop_allowed.getD Value.vnull)
          (primary.thenClause.allowed_actions.getD [])
          (primary.thenClause.reason.getD
            ("rule_" ++ primary.id.getD "unknown"))
          []))

/-!
## Derived definitions used by the correctness statements
-/

/-- Boolean form of "this rule's conditions all evaluate, without a
`TypeError`, to true". -/
def matchesOk (ctx : Ctx) (r : Rule) : Bool :=
  match ruleMatches ctx r with
  | Except.ok b => b
  | Except.error _ => false

/-- The auxiliary-flag table produced by the merge pass, starting from the
table `ex` of the base decision. -/
def mergeExtra (m : List Rule) (ex : List (String × Value)) :
    List (String × Value) :=
  m.foldl
    (fun ex r =>
      match flagOf r with
      | some v => setKey ex "allow_stop_0euros" v
      | none => ex)
    ex

/-- The value held by `allow_stop_0euros` after the merge pass: the flag of
the last rule of `m` that declares it, else the initial value. -/
def lastFlag (m : List Rule) (init : Option Value) : Option Value :=
  m.foldl
    (fun acc r =>
      match flagOf r with
      | some v => some v
      | none => acc)
    init

/-- `true` iff the value has a numeric view (number or boolean). -/
def numericValue (v : Value) : Bool :=
  (toNum? v).isSome

/-- A condition is safe to evaluate at a value (it cannot raise
`TypeError`): literals always are; a range needs a missing value, or a
numeric value with numeric bounds. -/
def condSafe (c : Condition) (v : Value) : Bool :=
  match c with
  | Condition.lit _ => true
  | Condition.range mn mx =>
    v == Value.vnull ||
      (numericValue v &&
        (match mn with | some b => numericValue b | none => true) &&
        (match mx with | some b => numericValue b | none => true))

/-!
## Context enrichment and pipeline (`backend/main.py`, `api/index.py`)
-/

/-- Python truthiness of a scalar value (`if value:` in `main.py`
line 120): `None`, `False`, `0`, and `""` are falsy. -/
def pyTruthy : Value → Bool
  | Value.vnull => false
  | Value.vbool b => b
  | Value.vnum q => !(q == 0)
  | Value.vstr s => !(s == "")

/-- The merge loop's test on the current value (`main.py` line 120 /
`index.py` line 147): `current_val is None or current_val == "" or
current_val == "null"`.  Note: `"desconocido"` is NOT in this list. -/
def mergerMissing (v : Value) : Bool :=
  v == Value.vnull || v == Value.vstr "" || v == Value.vstr "null"

/-- One iteration of the enrichment loop, parametrised by the guard on the
extracted value (`pyTruthy` in `backend/main.py`, non-null in
`api/index.py`). -/
def enrichStep (cond : Value → Bool) (acc : Ctx) (k : String) (v : Value) :
    Ctx :=
  if cond v && mergerMissing (ctxGet acc k) then setKey acc k v else acc

/-- The enrichment loop over the extracted items, threading the updated
context. -/
def enrichLoop (cond : Value → Bool) : Ctx → List (String × Value) → Ctx
  | acc, [] => acc
  | acc, (k, v) :: rest => enrichLoop cond (enrichStep cond acc k v) rest

/-- The context-enrichment merge of `backend/main.py` lines 116-121:
start from a copy of the static context; for each extracted `(key, value)`,
set it iff `value` is truthy and the current value is `None`/`""`/`"null"`. -/
def enrichContext (staticCtx : Ctx) (extracted : List (String × Value)) :
    Ctx :=
  enrichLoop pyTruthy staticCtx extracted

/-- The context-enrichment merge of `api/index.py` lines 143-149: same
loop, but the extracted value only needs to be non-`None`. -/
def enrichContextApi (staticCtx : Ctx) (extracted : List (String × Value)) :
    Ctx :=
  enrichLoop (fun v => !(v == Value.vnull)) staticCtx extracted

/-- The classifier's output (`detection` in `main.py` lines 110-114):
process label, confidence and extracted fields.  The classifier itself is
an external collaborator; its result is a parameter of the pipeline. -/
structure Detection where
  process : String := "UNKNOWN"
  confidence : ℚ := 0
  extracted_data : List (String × Value) := []
deriving DecidableEq, Repr

/-- The `rules_decision` field of the response: either one of the two fixed
`{status, message}` payloads of the SOCIAL/UNKNOWN branches, or an engine
decision. -/
inductive RulesPayload where
  | message : String → String → RulesPayload
  | engine : Decision → RulesPayload
deriving DecidableEq, Repr

/-- A successful `AnalyzeResponse` (`main.py` lines 32-39). -/
structure AnalyzeOk where
  status : String
  process : String
  confidence : ℚ
  rules_decision : RulesPayload
  recommendation : Option (List (String × Value))
  enriched_context : Ctx
deriving DecidableEq, Repr

/-- The outcome of `analyze_conversation`: a well-formed response or an
`HTTPException` with its status code (400 bad input, 404 rules file not
found, 500 internal error, 501 specialist not implemented). -/
inductive AnalyzeResult where
  | ok : AnalyzeOk → AnalyzeResult
  | httpError : Nat → AnalyzeResult
deriving DecidableEq, Repr

/-- The pipeline state machine of `analyze_conversation`
(`backend/main.py` lines 100-190).  The external collaborators are
parameters: `rulesets` models `load_rules_engine` (a rules file per
process name, `none` = `FileNotFoundError` → 404), `sp` models the
STOP_REPARTO specialist agent, and `det` is the classifier's output.
A `TypeError` escaping `evaluate` is caught by the outer handler → 500. -/
def analyze (rulesets : String → Option RuleSet)
    (sp : Ctx → Decision → List (String × Value))
    (messages : List String) (customer_context : Ctx)
    (det : Detection) : AnalyzeResult :=
  if messages = [] then AnalyzeResult.httpError 400
  else if customer_context = [] then AnalyzeResult.httpError 400
  else
    let enriched := enrichContext customer_context det.extracted_data
    if det.process = "SOCIAL" then
      AnalyzeResult.ok ⟨"SOCIAL", "SOCIAL", det.confidence,
        RulesPayload.message "SOCIAL" "Conversación social detectada",
        none, enriched⟩
    else if det.process = "UNKNOWN" ∨ det.confidence < 3/10 then
      AnalyzeResult.ok ⟨"UNKNOWN", "UNKNOWN", det.confidence,
        RulesPayload.message "UNKNOWN" "Esperando solicitud de negocio...",
        none, enriched⟩
    else
      match rulesets det.process with
      | none => AnalyzeResult.httpError 404
      | some rs =>
        match evaluate rs enriched with
        | Except.error _ => AnalyzeResult.httpError 500
        | Except.ok d =>
          if d.status = "NEED_INFO" then
            AnalyzeResult.ok ⟨"NEED_INFO", det.process, det.confidence,
              RulesPayload.engine d, none, enriched⟩
          else if det.process = "STOP_REPARTO" then
            AnalyzeResult.ok ⟨"RECOMMENDATION", det.process, det.confidence,
              RulesPayload.engine d, some (sp enriched d), enriched⟩
          else AnalyzeResult.httpError 501

/-!
## Basic lemmas about the condition evaluator
-/

theorem evaluateCondition_vnull (c : Condition) :
    evaluateCondition c Value.vnull = Except.ok false := by
  simp [evaluateCondition]

/-!
## Claim C2

The claim states that the condition evaluator returns `false` for every
missing context value (null, `""`, `"null"`, `"desconocido"`), for every
condition shape.  The code (`evaluator.py` line 48) only short-circuits on
`None`: the three string sentinels are compared as ordinary values, so an
equality condition equal to the sentinel matches, and an unbounded range
passes.  The claim fails; what holds is the null case only.
-/

/-- Claim C2 (counterexample): for the missing sentinels `"desconocido"`,
`""` and `"null"` the condition evaluator does NOT return false: an
equality condition with the same literal matches, and a range with no
bounds (hence in particular no lower bound) passes on `""`. -/
theorem condition_sentinels_not_missing :
    evaluateCondition (Condition.lit (Value.vstr "desconocido"))
        (Value.vstr "desconocido") = Except.ok true ∧
      evaluateCondition (Condition.range none none) (Value.vstr "") =
        Except.ok true ∧
      evaluateCondition (Condition.lit (Value.vstr "null"))
        (Value.vstr "null") = Except.ok true := by
  refine ⟨?_, ?_, ?_⟩ <;> rfl

/-- Claim C2 (amended): the condition evaluator returns false
unconditionally only for the null context value; this holds for every
condition, including range objects with no lower bound or with neither
bound.  The other three missing sentinels (`""`, `"null"`,
`"desconocido"`) are evaluated as ordinary values. -/
theorem condition_null_always_false (c : Condition) :
    evaluateCondition c Value.vnull = Except.ok false :=
  evaluateCondition_vnull c

/-!
## Claim C10
-/

/-- Claim C10: an equality condition whose literal is the boolean `true`
(resp. `false`) matches a context field holding the number `1` (resp. `0`):
equality between a boolean literal and a numeric context value follows
numeric equality, with `true` read as 1 and `false` as 0. -/
theorem condition_bool_literal_numeric_equality :
    (∀ q : ℚ, evaluateCondition (Condition.lit (Value.vbool true))
        (Value.vnum q) = Except.ok (decide ((1 : ℚ) = q))) ∧
      (∀ q : ℚ, evaluateCondition (Condition.lit (Value.vbool false))
        (Value.vnum q) = Except.ok (decide ((0 : ℚ) = q))) ∧
      evaluateCondition (Condition.lit (Value.vbool true)) (Value.vnum 1) =
        Except.ok true ∧
      evaluateCondition (Condition.lit (Value.vbool false)) (Value.vnum 0) =
        Except.ok true := by
  refine ⟨fun q => ?_, fun q => ?_, ?_, ?_⟩ <;>
    simp [evaluateCondition, pyEq, toNum?]

/-!
## Lemmas about the stable descending sort
-/

theorem insertRule_split (r : Rule) (t : List Rule) :
    ∃ t₁ t₂, insertRule r t = t₁ ++ r :: t₂ ∧ t = t₁ ++ t₂ ∧
      ∀ x ∈ t₁, priorityOf r < priorityOf x := by
  induction t with
  | nil => exact ⟨[], [], rfl, rfl, by simp⟩
  | cons s rest ih =>
    by_cases h : priorityOf r < priorityOf s
    · obtain ⟨t₁, t₂, h1, h2, h3⟩ := ih
      refine ⟨s :: t₁, t₂, ?_, ?_, ?_⟩
      · simp [insertRule, h, h1]
      · simp [h2]
      · intro x hx
        rcases List.mem_cons.mp hx with rfl | hx
        · exact h
        · exact h3 x hx
    · exact ⟨[], s :: rest, by simp [insertRule, h], rfl, by simp⟩

theorem insertRule_perm (r : Rule) (t : List Rule) :
    List.Perm (insertRule r t) (r :: t) := by
  obtain ⟨t₁, t₂, h1, h2, -⟩ := insertRule_split r t
  rw [h1, h2]
  exact List.perm_middle

theorem sortRules_perm (l : List Rule) : List.Perm (sortRules l) l := by
  induction l with
  | nil => exact List.Perm.refl []
  | cons r rest ih =>
    exact (insertRule_perm r (sortRules rest)).trans (List.Perm.cons r ih)

theorem mem_sortRules {x : Rule} {l : List Rule} :
    x ∈ sortRules l ↔ x ∈ l :=
  (sortRules_perm l).mem_iff

theorem insertRule_sorted {t : List Rule} (r : Rule)
    (h : t.Pairwise (fun a b => priorityOf b ≤ priorityOf a)) :
    (insertRule r t).Pairwise (fun a b => priorityOf b ≤ priorityOf a) := by
  induction t with
  | nil => simp [insertRule]
  | cons s rest ih =>
    rcases List.pairwise_cons.mp h with ⟨hs, hrest⟩
    by_cases hc : priorityOf r < priorityOf s
    · simp only [insertRule, if_pos hc]
      refine List.pairwise_cons.mpr ⟨?_, ih hrest⟩
      intro x hx
      have hx' : x ∈ r :: rest := (insertRule_perm r rest).mem_iff.mp hx
      rcases List.mem_cons.mp hx' with rfl | hxr
      · exact le_of_lt hc
      · exact hs x hxr
    · simp only [insertRule, if_neg hc]
      have hrs : priorityOf s ≤ priorityOf r := not_lt.mp hc
      refine List.pairwise_cons.mpr ⟨?_, h⟩
      intro x hx
      rcases List.mem_cons.mp hx with rfl | hx
      · exact hrs
      · exact le_trans (hs x hx) hrs

theorem sortRules_sorted (l : List Rule) :
    (sortRules l).Pairwise (fun a b => priorityOf b ≤ priorityOf a) := by
  induction l with
  | nil => simp [sortRules]
  | cons r rest ih => exact insertRule_sorted r ih

theorem sublist_insertRule {s t : List Rule} (r : Rule)
    (h : List.Sublist s t) : List.Sublist s (insertRule r t) := by
  obtain ⟨t₁, t₂, h1, h2, -⟩ := insertRule_split r t
  rw [h1]
  rw [h2] at h
  exact h.trans (List.Sublist.append_left (List.sublist_cons_self r t₂) t₁)

theorem pair_sublist_sortRules {x y : Rule} {l : List Rule}
    (hxy : priorityOf y ≤ priorityOf x) (h : List.Sublist [x, y] l) :
    List.Sublist [x, y] (sortRules l) := by
  induction l with
  | nil => simp at h
  | cons a rest ih =>
    cases h with
    | cons _ h' =>
      exact sublist_insertRule a (ih h')
    | cons₂ _ h' =>
      obtain ⟨t₁, t₂, h1, h2, h3⟩ := insertRule_split x (sortRules rest)
      show List.Sublist [x, y] (insertRule x (sortRules rest))
      rw [h1]
      have hy : y ∈ sortRules rest :=
        mem_sortRules.mpr (List.singleton_sublist.mp h')
      rw [h2] at hy
      rcases List.mem_append.mp hy with hy1 | hy2
      · exact absurd hxy (not_le.mpr (h3 y hy1))
      · exact (List.Sublist.cons₂ x
          (List.singleton_sublist.mpr hy2)).trans
          (List.sublist_append_right t₁ (x :: t₂))

theorem first_occ_split {a : Rule} {l : List Rule} (h : a ∈ l) :
    ∃ l₁ l₂, l = l₁ ++ a :: l₂ ∧ a ∉ l₁ := by
  induction l with
  | nil => cases h
  | cons b rest ih =>
    by_cases hb : a = b
    · exact ⟨[], rest, by simp [hb], by simp⟩
    · rcases List.mem_cons.mp h with h1 | h2
      · exact absurd h1 hb
      · obtain ⟨l₁, l₂, h3, h4⟩ := ih h2
        exact ⟨b :: l₁, l₂, by simp [h3], by simp [h4, hb]⟩

/-!
## Lemmas about the matching loop
-/

theorem filterMatched_ok (ctx : Ctx) {L m : List Rule}
    (h : filterMatched ctx L = Except.ok m) :
    m = L.filter (matchesOk ctx) ∧
      ∀ x ∈ L, ∃ b, ruleMatches ctx x = Except.ok b := by
  induction L generalizing m with
  | nil =>
    simp only [filterMatched, Except.ok.injEq] at h
    subst h
    exact ⟨rfl, by simp⟩
  | cons r rest ih =>
    simp only [filterMatched] at h
    cases hr : ruleMatches ctx r with
    | error e => rw [hr] at h; cases h
    | ok b =>
      rw [hr] at h
      cases hrest : filterMatched ctx rest with
      | error e => rw [hrest] at h; cases h
      | ok m' =>
        rw [hrest] at h
        obtain ⟨hm', hall⟩ := ih hrest
        have hm : m = if b then r :: m' else m' := by
          cases h
          rfl
        refine ⟨?_, ?_⟩
        · rw [hm, hm']
          cases b with
          | true => simp [List.filter_cons, matchesOk, hr]
          | false => simp [List.filter_cons, matchesOk, hr]
        · intro x hx
          rcases List.mem_cons.mp hx with rfl | hx
          · exact ⟨b, hr⟩
          · exact hall x hx

theorem filterMatched_ok_of_all (ctx : Ctx) {L : List Rule}
    (h : ∀ x ∈ L, ∃ b, ruleMatches ctx x = Except.ok b) :
    ∃ m, filterMatched ctx L = Except.ok m := by
  induction L with
  | nil => exact ⟨[], rfl⟩
  | cons r rest ih =>
    obtain ⟨b, hb⟩ := h r (List.mem_cons_self r rest)
    obtain ⟨m, hm⟩ := ih (fun x hx => h x (List.mem_cons_of_mem r hx))
    exact ⟨if b then r :: m else m, by simp [filterMatched, hb, hm]⟩

theorem filterMatched_none (ctx : Ctx) {L : List Rule}
    (h : ∀ x ∈ L, ruleMatches ctx x = Except.ok false) :
    filterMatched ctx L = Except.ok [] := by
  induction L with
  | nil => rfl
  | cons r rest ih =>
    simp [filterMatched, h r (List.mem_cons_self r rest),
      ih (fun x hx => h x (List.mem_cons_of_mem r hx))]

/-!
## Claim C1
-/

theorem find?_first_missing (ctx : Ctx) (pre : List String) (f : String)
    (post : List String)
    (hpre : ∀ g ∈ pre, isMissingValue (ctxGet ctx g) = false)
    (hf : isMissingValue (ctxGet ctx f) = true) :
    (pre ++ f :: post).find? (fun g => isMissingValue (ctxGet ctx g)) =
      some f := by
  induction pre with
  | nil => simp [List.find?_cons, hf]
  | cons g rest ih =>
    have hg : isMissingValue (ctxGet ctx g) = false :=
      hpre g (List.mem_cons_self g rest)
    simp only [List.cons_append, List.find?_cons, hg]
    exact ih (fun x hx => hpre x (List.mem_cons_of_mem g hx))

/-- Claim C1: whenever some required field is missing from the context
(null, `""`, `"null"` or `"desconocido"`), `evaluate` returns a NEED_INFO
decision naming the first such field in `required_fields` declaration
order, carrying that field's question text from
`missing_info_behavior.questions` — and this decision does not depend on
the rule list at all (no rule's `when` conditions are evaluated). -/
theorem evaluate_need_info_first_missing (rs : RuleSet) (ctx : Ctx)
    (pre : List String) (f : String) (post : List String)
    (hsplit : rs.required_fields = pre ++ f :: post)
    (hpre : ∀ g ∈ pre, isMissingValue (ctxGet ctx g) = false)
    (hf : isMissingValue (ctxGet ctx f) = true) :
    ∀ rules' : List Rule,
      evaluate { rs with rules := rules' } ctx =
        Except.ok (Decision.needInfo f
          (rs.missing_info_behavior.status.getD "NEED_INFO")
          (rs.missing_info_behavior.questions.lookup f)) := by
  intro rules'
  have hfind := find?_first_missing ctx pre f post hpre hf
  simp [evaluate, hsplit, hfind]

/-- Witness for claim C1: a ruleset requiring `plan` then `scoring`,
where `plan` is present and `scoring` holds the placeholder
`"desconocido"`, yields NEED_INFO on `scoring` with its question text,
whatever the rules are. -/
theorem evaluate_need_info_first_missing_witness :
    evaluate
        { required_fields := ["plan", "scoring"],
          missing_info_behavior :=
            { status := some "NEED_INFO",
              questions := [("scoring", "¿Qué scoring tiene el cliente?")] },
          rules := [{ id := some "r", priority := some 1 }] }
        [("plan", Value.vstr "Ahorro"), ("scoring", Value.vstr "desconocido")] =
      Except.ok (Decision.needInfo "scoring" "NEED_INFO"
        (some "¿Qué scoring tiene el cliente?")) := by
  exact evaluate_need_info_first_missing
    { required_fields := ["plan", "scoring"],
      missing_info_behavior :=
        { status := some "NEED_INFO",
          questions := [("scoring", "¿Qué scoring tiene el cliente?")] },
      rules := [{ id := some "r", priority := some 1 }] }
    [("plan", Value.vstr "Ahorro"), ("scoring", Value.vstr "desconocido")]
    ["plan"] "scoring" [] rfl (by decide) (by decide)
    [{ id := some "r", priority := some 1 }]

/-!
## Claim C4
-/

/-- Claim C4: when every required field is present and no rule matches,
`evaluate` returns — without raising — exactly the sentinel decision with
status RECOMMENDATION, decision `"no_match"`, `stop_allowed` null,
`allowed_actions` empty and reason `"no_rules_matched"`. -/
theorem evaluate_no_match_sentinel (rs : RuleSet) (ctx : Ctx)
    (hgate : ∀ f ∈ rs.required_fields, isMissingValue (ctxGet ctx f) = false)
    (hnone : ∀ x ∈ rs.rules, ruleMatches ctx x = Except.ok false) :
    evaluate rs ctx =
        Except.ok (Decision.recommendation "no_match" Value.vnull []
          "no_rules_matched" []) ∧
      (Decision.recommendation "no_match" Value.vnull []
          "no_rules_matched" []).status = "RECOMMENDATION" := by
  have hfind :
      rs.required_fields.find? (fun f => isMissingValue (ctxGet ctx f)) =
        none :=
    List.find?_eq_none.mpr (fun x hx => by simp [hgate x hx])
  have hmr : matchedRules rs ctx = Except.ok [] :=
    filterMatched_none ctx (fun x hx => hnone x (mem_sortRules.mp hx))
  refine ⟨?_, rfl⟩
  simp [evaluate, hfind, hmr]

/-- Witness for claim C4: a one-rule ruleset whose condition
`plan = "X"` fails on a context with `plan = "Y"`. -/
theorem evaluate_no_match_sentinel_witness :
    evaluate
        { rules := [{ id := some "r3", priority := some 5, whenConds := [("plan", Condition.lit (Value.vstr "X"))] }] }
        [("plan", Value.vstr "Y")] =
      Except.ok (Decision.recommendation "no_match" Value.vnull []
        "no_rules_matched" []) :=
  (evaluate_no_match_sentinel
    { rules := [{ id := some "r3", priority := some 5, whenConds := [("plan", Condition.lit (Value.vstr "X"))] }] }
    [("plan", Value.vstr "Y")]
    (by decide) (by decide)).1

/-!
## Lemmas about the flag-merge pass
-/

theorem matchesOk_iff {ctx : Ctx} {x : Rule} :
    matchesOk ctx x = true ↔ ruleMatches ctx x = Except.ok true := by
  unfold matchesOk
  cases h : ruleMatches ctx x with
  | ok b => cases b <;> simp
  | error e => simp

theorem lookup_setKey_self (l : List (String × Value)) (k : String)
    (v : Value) : (setKey l k v).lookup k = some v := by
  induction l with
  | nil => simp [setKey, List.lookup]
  | cons p rest ih =>
    obtain ⟨a, b⟩ := p
    by_cases h : a = k
    · simp [setKey, h, List.lookup]
    · have hka : (k == a) = false := by
        simp [Ne.symm h]
      simp [setKey, h, List.lookup, hka, ih]

theorem lookup_setKey_ne (l : List (String × Value)) {k k' : String}
    (v : Value) (h : k' ≠ k) :
    (setKey l k v).lookup k' = l.lookup k' := by
  have hkk : (k' == k) = false := by
    simp [h]
  induction l with
  | nil => simp [setKey, List.lookup, hkk]
  | cons p rest ih =>
    obtain ⟨a, b⟩ := p
    by_cases ha : a = k
    · subst ha
      simp [setKey, List.lookup, hkk]
    · simp [setKey, ha, List.lookup, ih]

theorem mergeExtra_cons (r : Rule) (rest : List Rule)
    (ex : List (String × Value)) :
    mergeExtra (r :: rest) ex =
      mergeExtra rest
        (match flagOf r with
         | some v => setKey ex "allow_stop_0euros" v
         | none => ex) := rfl

theorem lastFlag_cons (r : Rule) (rest : List Rule) (init : Option Value) :
    lastFlag (r :: rest) init =
      lastFlag rest
        (match flagOf r with
         | some v => some v
         | none => init) := rfl

theorem mergeFlags_recommendation (m : List Rule) (dec : String) (sa : Value)
    (aa : List String) (rsn : String) (ex : List (String × Value)) :
    mergeFlags m (Decision.recommendation dec sa aa rsn ex) =
      Decision.recommendation dec sa aa rsn (mergeExtra m ex) := by
  induction m generalizing ex with
  | nil => rfl
  | cons r rest ih =>
    cases hf : flagOf r with
    | some v =>
      have hstep : mergeFlags (r :: rest)
          (Decision.recommendation dec sa aa rsn ex) =
          mergeFlags rest (Decision.recommendation dec sa aa rsn
            (setKey ex "allow_stop_0euros" v)) := by
        simp [mergeFlags, hf]
      have hstep2 : mergeExtra (r :: rest) ex =
          mergeExtra rest (setKey ex "allow_stop_0euros" v) := by
        rw [mergeExtra_cons, hf]
      rw [hstep, hstep2]
      exact ih _
    | none =>
      have hstep : mergeFlags (r :: rest)
          (Decision.recommendation dec sa aa rsn ex) =
          mergeFlags rest (Decision.recommendation dec sa aa rsn ex) := by
        simp [mergeFlags, hf]
      have hstep2 : mergeExtra (r :: rest) ex = mergeExtra rest ex := by
        rw [mergeExtra_cons, hf]
      rw [hstep, hstep2]
      exact ih ex

theorem mergeExtra_lookup_ne (m : List Rule) (ex : List (String × Value))
    {k : String} (h : k ≠ "allow_stop_0euros") :
    (mergeExtra m ex).lookup k = ex.lookup k := by
  induction m generalizing ex with
  | nil => rfl
  | cons r rest ih =>
    cases hf : flagOf r with
    | some v =>
      have hstep : mergeExtra (r :: rest) ex =
          mergeExtra rest (setKey ex "allow_stop_0euros" v) := by
        rw [mergeExtra_cons, hf]
      rw [hstep, ih]
      exact lookup_setKey_ne ex v h
    | none =>
      have hstep : mergeExtra (r :: rest) ex = mergeExtra rest ex := by
        rw [mergeExtra_cons, hf]
      rw [hstep]
      exact ih ex

theorem mergeExtra_lookup_flag (m : List Rule) (ex : List (String × Value)) :
    (mergeExtra m ex).lookup "allow_stop_0euros" =
      lastFlag m (ex.lookup "allow_stop_0euros") := by
  induction m generalizing ex with
  | nil => rfl
  | cons r rest ih =>
    cases hf : flagOf r with
    | some v =>
      have hstep : mergeExtra (r :: rest) ex =
          mergeExtra rest (setKey ex "allow_stop_0euros" v) := by
        rw [mergeExtra_cons, hf]
      have hstep2 : lastFlag (r :: rest) (ex.lookup "allow_stop_0euros") =
          lastFlag rest (some v) := by
        rw [lastFlag_cons, hf]
      rw [hstep, hstep2, ih, lookup_setKey_self]
    | none =>
      have hstep : mergeExtra (r :: rest) ex = mergeExtra rest ex := by
        rw [mergeExtra_cons, hf]
      have hstep2 : lastFlag (r :: rest) (ex.lookup "allow_stop_0euros") =
          lastFlag rest (ex.lookup "allow_stop_0euros") := by
        rw [lastFlag_cons, hf]
      rw [hstep, hstep2]
      exact ih ex

theorem lastFlag_const {m : List Rule} {v : Value}
    (h : ∀ x ∈ m, ∀ w, flagOf x = some w → w = v) :
    lastFlag m (some v) = some v := by
  induction m with
  | nil => rfl
  | cons r rest ih =>
    cases hf : flagOf r with
    | some w =>
      have hw : w = v := h r (List.mem_cons_self r rest) w hf
      have hstep : lastFlag (r :: rest) (some v) = lastFlag rest (some v) := by
        rw [lastFlag_cons, hf, hw]
      rw [hstep]
      exact ih (fun x hx => h x (List.mem_cons_of_mem r hx))
    | none =>
      have hstep : lastFlag (r :: rest) (some v) = lastFlag rest (some v) := by
        rw [lastFlag_cons, hf]
      rw [hstep]
      exact ih (fun x hx => h x (List.mem_cons_of_mem r hx))

theorem lastFlag_eq_of_lowest {m : List Rule} {rlast : Rule} {v : Value}
    (init : Option Value) (hmem : rlast ∈ m) (hval : flagOf rlast = some v)
    (hmin : ∀ x ∈ m, flagOf x ≠ none →
      flagOf x = some v ∨ priorityOf rlast < priorityOf x)
    (hsorted : m.Pairwise (fun a b => priorityOf b ≤ priorityOf a)) :
    lastFlag m init = some v := by
  induction m generalizing init with
  | nil => cases hmem
  | cons r rest ih =>
    rcases List.pairwise_cons.mp hsorted with ⟨hr, hrest⟩
    rcases List.mem_cons.mp hmem with rfl | hmem'
    · have hstep : lastFlag (rlast :: rest) init = lastFlag rest (some v) := by
        rw [lastFlag_cons, hval]
      rw [hstep]
      refine lastFlag_const (fun x hx w hw => ?_)
      rcases hmin x (List.mem_cons_of_mem rlast hx) (by simp [hw]) with h1 | h2
      · rw [hw] at h1
        exact (Option.some.injEq w v).mp h1
      · exact absurd (hr x hx) (not_le.mpr h2)
    · cases hf : flagOf r with
      | some w =>
        have hstep : lastFlag (r :: rest) init = lastFlag rest (some w) := by
          rw [lastFlag_cons, hf]
        rw [hstep]
        exact ih _ hmem'
          (fun x hx hne => hmin x (List.mem_cons_of_mem r hx) hne) hrest
      | none =>
        have hstep : lastFlag (r :: rest) init = lastFlag rest init := by
          rw [lastFlag_cons, hf]
        rw [hstep]
        exact ih _ hmem'
          (fun x hx hne => hmin x (List.mem_cons_of_mem r hx) hne) hrest

/-!
## Common setup for the composition claims: the matched list
-/

theorem matched_filter (rs : RuleSet) (ctx : Ctx)
    (hok : ∀ x ∈ rs.rules, ∃ b, ruleMatches ctx x = Except.ok b) :
    matchedRules rs ctx =
      Except.ok ((sortRules rs.rules).filter (matchesOk ctx)) := by
  obtain ⟨m, hm⟩ :=
    filterMatched_ok_of_all ctx
      (fun x hx => hok x (mem_sortRules.mp hx))
  obtain ⟨hfil, -⟩ := filterMatched_ok ctx hm
  rw [matchedRules, hm, hfil]

theorem matched_pairwise (rs : RuleSet) (ctx : Ctx) :
    ((sortRules rs.rules).filter (matchesOk ctx)).Pairwise
      (fun a b => priorityOf b ≤ priorityOf a) :=
  List.Pairwise.sublist (List.filter_sublist _) (sortRules_sorted rs.rules)

theorem gate_passes (rs : RuleSet) (ctx : Ctx)
    (hgate : ∀ f ∈ rs.required_fields,
      isMissingValue (ctxGet ctx f) = false) :
    rs.required_fields.find? (fun f => isMissingValue (ctxGet ctx f)) =
      none :=
  List.find?_eq_none.mpr (fun x hx => by simp [hgate x hx])

/-!
## Claim C3
-/

/-- Claim C3: when the missing-field gate passes and at least one rule
matches (and no rule evaluation raises), the base decision fields come
from a matched rule `r` that is the highest-priority matched rule, first
in declaration order among matched rules of that priority (stable
descending sort): every matched rule has priority ≤ `r`'s, every matched
rule declared before `r` has strictly smaller priority, and the decision's
`decision`, `stop_allowed`, `allowed_actions` and `reason` are read from
`r`'s `then` clause, `reason` defaulting to `"rule_" ++ r.id`. -/
theorem evaluate_primary_highest_priority (rs : RuleSet) (ctx : Ctx)
    (hnodup : rs.rules.Nodup)
    (hgate : ∀ f ∈ rs.required_fields, isMissingValue (ctxGet ctx f) = false)
    (hok : ∀ x ∈ rs.rules, ∃ b, ruleMatches ctx x = Except.ok b)
    (hmatch : ∃ x ∈ rs.rules, ruleMatches ctx x = Except.ok true) :
    ∃ r l₁ l₂ ex,
      rs.rules = l₁ ++ r :: l₂ ∧
      ruleMatches ctx r = Except.ok true ∧
      (∀ x ∈ rs.rules, ruleMatches ctx x = Except.ok true →
        priorityOf x ≤ priorityOf r) ∧
      (∀ x ∈ l₁, ruleMatches ctx x = Except.ok true →
        priorityOf x < priorityOf r) ∧
      evaluate rs ctx = Except.ok (Decision.recommendation
        (r.thenClause.decision.getD "unknown")
        (r.thenClause.stop_allowed.getD Value.vnull)
        (r.thenClause.allowed_actions.getD [])
        (r.thenClause.reason.getD ("rule_" ++ r.id.getD "unknown"))
        ex) := by
  have hmr := matched_filter rs ctx hok
  set m := (sortRules rs.rules).filter (matchesOk ctx) with hmdef
  obtain ⟨x₀, hx₀m, hx₀⟩ := hmatch
  have hx₀mem : x₀ ∈ m := by
    rw [hmdef]
    exact List.mem_filter.mpr
      ⟨mem_sortRules.mpr hx₀m, matchesOk_iff.mpr hx₀⟩
  obtain ⟨r, tl, hm⟩ : ∃ r tl, m = r :: tl := by
    cases hcase : m with
    | nil => rw [hcase] at hx₀mem; cases hx₀mem
    | cons r tl => exact ⟨r, tl, rfl⟩
  have hrm : r ∈ m := by rw [hm]; exact List.mem_cons_self r tl
  have hrfil := List.mem_filter.mp (hmdef ▸ hrm)
  have hrrules : r ∈ rs.rules := mem_sortRules.mp hrfil.1
  have hrmatch : ruleMatches ctx r = Except.ok true :=
    matchesOk_iff.mp hrfil.2
  have hpair : m.Pairwise (fun a b => priorityOf b ≤ priorityOf a) :=
    hmdef ▸ matched_pairwise rs ctx
  have hmax : ∀ x ∈ rs.rules, ruleMatches ctx x = Except.ok true →
      priorityOf x ≤ priorityOf r := by
    intro x hx hxm
    have hxmem : x ∈ m := by
      rw [hmdef]
      exact List.mem_filter.mpr
        ⟨mem_sortRules.mpr hx, matchesOk_iff.mpr hxm⟩
    rw [hm] at hxmem
    rcases List.mem_cons.mp hxmem with rfl | hxtl
    · exact le_refl _
    · have hp2 : (r :: tl).Pairwise (fun a b => priorityOf b ≤ priorityOf a) :=
        hm ▸ hpair
      have := List.rel_of_pairwise_cons hp2 hxtl
      exact this
  obtain ⟨l₁, l₂, hsplit, hnotin⟩ := first_occ_split hrrules
  have hmnodup : m.Nodup := by
    rw [hmdef]
    exact (List.filter_sublist _).nodup
      ((sortRules_perm rs.rules).nodup_iff.mpr hnodup)
  have hstrict : ∀ x ∈ l₁, ruleMatches ctx x = Except.ok true →
      priorityOf x < priorityOf r := by
    intro x hxl hxm
    by_contra hcon
    have hge : priorityOf r ≤ priorityOf x := not_lt.mp hcon
    have hxne : x ≠ r := fun he => hnotin (he ▸ hxl)
    have hpairsub : List.Sublist [x, r] rs.rules := by
      rw [hsplit]
      exact List.Sublist.append (List.singleton_sublist.mpr hxl)
        (List.singleton_sublist.mpr (List.mem_cons_self r l₂))
    have hsorted2 : List.Sublist [x, r] (sortRules rs.rules) :=
      pair_sublist_sortRules hge hpairsub
    have hfil2 : List.Sublist [x, r] m := by
      have := hsorted2.filter (matchesOk ctx)
      rwa [show [x, r].filter (matchesOk ctx) = [x, r] by
        simp [List.filter, matchesOk_iff.mpr hxm, matchesOk_iff.mpr hrmatch]]
        at this
    rw [hm] at hfil2
    cases hfil2 with
    | cons _ h' =>
      have hrtl : r ∈ tl := h'.subset (by simp)
      have : r ∉ tl := (List.nodup_cons.mp (hm ▸ hmnodup)).1
      exact this hrtl
    | cons₂ _ h' => exact hxne rfl
  refine ⟨r, l₁, l₂, mergeExtra (r :: tl) [], hsplit, hrmatch, hmax,
    hstrict, ?_⟩
  rw [hm] at hmr
  simp [evaluate, gate_passes rs ctx hgate, hmr, mergeFlags_recommendation]

/-- Witness for claim C3: two rules that both match; the one declared
second but with higher priority (2 over 1) provides the base fields. -/
theorem evaluate_primary_highest_priority_witness :
    ∃ r l₁ l₂ ex,
      [({ id := some "r1", priority := some 1, thenClause := { decision := some "d1" } } : Rule),
       { id := some "r2", priority := some 2, thenClause := { decision := some "d2" } }] = l₁ ++ r :: l₂ ∧
      ruleMatches [("plan", Value.vstr "Ahorro")] r = Except.ok true ∧
      (∀ x ∈ [({ id := some "r1", priority := some 1, thenClause := { decision := some "d1" } } : Rule),
         { id := some "r2", priority := some 2, thenClause := { decision := some "d2" } }],
        ruleMatches [("plan", Value.vstr "Ahorro")] x = Except.ok true →
        priorityOf x ≤ priorityOf r) ∧
      (∀ x ∈ l₁, ruleMatches [("plan", Value.vstr "Ahorro")] x = Except.ok true →
        priorityOf x < priorityOf r) ∧
      evaluate
          { rules := [{ id := some "r1", priority := some 1, thenClause := { decision := some "d1" } },
              { id := some "r2", priority := some 2, thenClause := { decision := some "d2" } }] }
          [("plan", Value.vstr "Ahorro")] =
        Except.ok (Decision.recommendation
          (r.thenClause.decision.getD "unknown")
          (r.thenClause.stop_allowed.getD Value.vnull)
          (r.thenClause.allowed_actions.getD [])
          (r.thenClause.reason.getD ("rule_" ++ r.id.getD "unknown"))
          ex) :=
  evaluate_primary_highest_priority
    { rules := [{ id := some "r1", priority := some 1, thenClause := { decision := some "d1" } },
        { id := some "r2", priority := some 2, thenClause := { decision := some "d2" } }] }
    [("plan", Value.vstr "Ahorro")]
    (by decide) (by decide) (by decide) (by decide)

/-!
## Claim C5

The claim states the Decision Composer writes EVERY auxiliary key of a
matched rule's `then` clause into the consolidated decision, not only a
hardcoded flag name.  The merge loop (`evaluator.py` lines 154-158) checks
only the literal key `"allow_stop_0euros"`; every other auxiliary key is
dropped.  The claim fails; what holds is the hardcoded-key merge.
-/

/-- Claim C5 (counterexample): a single matched rule declares the
auxiliary key `"custom_flag"` in its `then` clause, yet the consolidated
decision carries an empty auxiliary table — the key is not written. -/
theorem composer_drops_other_aux_keys :
    ({ id := some "r1", priority := some 1, thenClause := { decision := some "d", extra := [("custom_flag", Value.vbool true)] } } : Rule).thenClause.extra.lookup "custom_flag" = some (Value.vbool true) ∧
      evaluate
          { rules := [{ id := some "r1", priority := some 1, thenClause := { decision := some "d", extra := [("custom_flag", Value.vbool true)] } }] }
          [("plan", Value.vstr "x")] =
        Except.ok (Decision.recommendation "d" Value.vnull [] "rule_r1" []) := by
  exact ⟨rfl, rfl⟩

/-- Claim C5 (amended): the merge pass writes only the hardcoded auxiliary
key `allow_stop_0euros` into the consolidated decision: whenever the gate
passes and at least one rule matches, every key of the decision's
auxiliary table other than `allow_stop_0euros` is absent, and
`allow_stop_0euros` holds the value of the last matched rule (in
priority-descending order) that declares it, if any.  Auxiliary keys with
any other name in a matched rule's `then` clause are dropped. -/
theorem composer_merges_only_hardcoded_flag (rs : RuleSet) (ctx : Ctx)
    (hgate : ∀ f ∈ rs.required_fields, isMissingValue (ctxGet ctx f) = false)
    (hok : ∀ x ∈ rs.rules, ∃ b, ruleMatches ctx x = Except.ok b)
    (hmatch : ∃ x ∈ rs.rules, ruleMatches ctx x = Except.ok true) :
    ∃ dec sa aa rsn ex,
      evaluate rs ctx =
        Except.ok (Decision.recommendation dec sa aa rsn ex) ∧
      (∀ k, k ≠ "allow_stop_0euros" → ex.lookup k = none) ∧
      ex.lookup "allow_stop_0euros" =
        lastFlag ((sortRules rs.rules).filter (matchesOk ctx)) none := by
  have hmr := matched_filter rs ctx hok
  set m := (sortRules rs.rules).filter (matchesOk ctx) with hmdef
  obtain ⟨x₀, hx₀m, hx₀⟩ := hmatch
  have hx₀mem : x₀ ∈ m := by
    rw [hmdef]
    exact List.mem_filter.mpr
      ⟨mem_sortRules.mpr hx₀m, matchesOk_iff.mpr hx₀⟩
  obtain ⟨r, tl, hm⟩ : ∃ r tl, m = r :: tl := by
    cases hcase : m with
    | nil => rw [hcase] at hx₀mem; cases hx₀mem
    | cons r tl => exact ⟨r, tl, rfl⟩
  rw [hm] at hmr
  refine ⟨r.thenClause.decision.getD "unknown",
    r.thenClause.stop_allowed.getD Value.vnull,
    r.thenClause.allowed_actions.getD [],
    r.thenClause.reason.getD ("rule_" ++ r.id.getD "unknown"),
    mergeExtra (r :: tl) [], ?_, ?_, ?_⟩
  · simp [evaluate, gate_passes rs ctx hgate, hmr, mergeFlags_recommendation]
  · intro k hk
    rw [mergeExtra_lookup_ne _ _ hk]
    rfl
  · rw [mergeExtra_lookup_flag, hm]
    rfl

/-- Witness for claim C5's amended theorem: one matched rule declaring
both `"custom_flag"` and `"allow_stop_0euros"`; the decision's table holds
only the latter. -/
theorem composer_merges_only_hardcoded_flag_witness :
    ∃ dec sa aa rsn ex,
      evaluate
          { rules := [{ id := some "r1", priority := some 1, thenClause := { decision := some "d", extra := [("custom_flag", Value.vbool true), ("allow_stop_0euros", Value.vbool false)] } }] }
          [("plan", Value.vstr "x")] =
        Except.ok (Decision.recommendation dec sa aa rsn ex) ∧
      (∀ k, k ≠ "allow_stop_0euros" → ex.lookup k = none) ∧
      ex.lookup "allow_stop_0euros" =
        lastFlag ((sortRules
          [{ id := some "r1", priority := some 1, thenClause := { decision := some "d", extra := [("custom_flag", Value.vbool true), ("allow_stop_0euros", Value.vbool false)] } }]).filter
            (matchesOk [("plan", Value.vstr "x")])) none :=
  composer_merges_only_hardcoded_flag
    { rules := [{ id := some "r1", priority := some 1, thenClause := { decision := some "d", extra := [("custom_flag", Value.vbool true), ("allow_stop_0euros", Value.vbool false)] } }] }
    [("plan", Value.vstr "x")]
    (by decide) (by decide) (by decide)

/-!
## Claim C6
-/

/-- Claim C6: when several matched rules declare the auxiliary flag
`allow_stop_0euros`, the consolidated decision holds the value declared by
the lowest-priority matched rule that declares it (here given as the rule
`rlast`, strictly lower-priority than every other matched declaring rule):
the merge pass iterates matched rules in priority-descending order and
each later assignment overwrites the previous one. -/
theorem merge_lowest_priority_flag_wins (rs : RuleSet) (ctx : Ctx)
    (rlast : Rule) (v : Value)
    (hgate : ∀ f ∈ rs.required_fields, isMissingValue (ctxGet ctx f) = false)
    (hok : ∀ x ∈ rs.rules, ∃ b, ruleMatches ctx x = Except.ok b)
    (hmem : rlast ∈ rs.rules)
    (hrmatch : ruleMatches ctx rlast = Except.ok true)
    (hval : flagOf rlast = some v)
    (hlow : ∀ x ∈ rs.rules, ruleMatches ctx x = Except.ok true →
      flagOf x ≠ none → x = rlast ∨ priorityOf rlast < priorityOf x) :
    ∃ dec sa aa rsn ex,
      evaluate rs ctx =
        Except.ok (Decision.recommendation dec sa aa rsn ex) ∧
      ex.lookup "allow_stop_0euros" = some v := by
  have hmr := matched_filter rs ctx hok
  set m := (sortRules rs.rules).filter (matchesOk ctx) with hmdef
  have hlmem : rlast ∈ m := by
    rw [hmdef]
    exact List.mem_filter.mpr
      ⟨mem_sortRules.mpr hmem, matchesOk_iff.mpr hrmatch⟩
  obtain ⟨r, tl, hm⟩ : ∃ r tl, m = r :: tl := by
    cases hcase : m with
    | nil => rw [hcase] at hlmem; cases hlmem
    | cons r tl => exact ⟨r, tl, rfl⟩
  rw [hm] at hmr
  refine ⟨r.thenClause.decision.getD "unknown",
    r.thenClause.stop_allowed.getD Value.vnull,
    r.thenClause.allowed_actions.getD [],
    r.thenClause.reason.getD ("rule_" ++ r.id.getD "unknown"),
    mergeExtra (r :: tl) [], ?_, ?_⟩
  · simp [evaluate, gate_passes rs ctx hgate, hmr, mergeFlags_recommendation]
  · rw [mergeExtra_lookup_flag]
    have hpair : m.Pairwise (fun a b => priorityOf b ≤ priorityOf a) :=
      hmdef ▸ matched_pairwise rs ctx
    have hmin : ∀ x ∈ m, flagOf x ≠ none →
        flagOf x = some v ∨ priorityOf rlast < priorityOf x := by
      intro x hx hne
      have hxfil := List.mem_filter.mp (hmdef ▸ hx)
      rcases hlow x (mem_sortRules.mp hxfil.1) (matchesOk_iff.mp hxfil.2)
          hne with rfl | h2
      · exact Or.inl hval
      · exact Or.inr h2
    have := lastFlag_eq_of_lowest
      (((List.lookup "allow_stop_0euros" ([] : List (String × Value)))))
      (hm ▸ hlmem) hval (hm ▸ hmin) (hm ▸ hpair)
    exact this

/-- Witness for claim C6: two always-matching rules of priorities 5 and 1
both declare `allow_stop_0euros` (true resp. false); the consolidated
decision holds `false`, the value from the priority-1 rule. -/
theorem merge_lowest_priority_flag_wins_witness :
    ∃ dec sa aa rsn ex,
      evaluate
          { rules := [{ id := some "lo", priority := some 1, thenClause := { extra := [("allow_stop_0euros", Value.vbool false)] } }, { id := some "hi", priority := some 5, thenClause := { decision := some "dh", extra := [("allow_stop_0euros", Value.vbool true)] } }] }
          [("plan", Value.vstr "x")] =
        Except.ok (Decision.recommendation dec sa aa rsn ex) ∧
      ex.lookup "allow_stop_0euros" = some (Value.vbool false) :=
  merge_lowest_priority_flag_wins
    { rules := [{ id := some "lo", priority := some 1, thenClause := { extra := [("allow_stop_0euros", Value.vbool false)] } }, { id := some "hi", priority := some 5, thenClause := { decision := some "dh", extra := [("allow_stop_0euros", Value.vbool true)] } }] }
    [("plan", Value.vstr "x")]
    { id := some "lo", priority := some 1, thenClause := { extra := [("allow_stop_0euros", Value.vbool false)] } }
    (Value.vbool false)
    (by decide) (by decide) (by decide) (by decide) (by decide) (by decide)

/-!
## Claim C9

The claim states `evaluate` never raises for any context of scalar values.
But Python's `<`/`>` raise `TypeError` between a string and a number, and
`_evaluate_condition` applies them whenever a range condition meets a
non-`None` context value (`evaluator.py` lines 56-62); `evaluate` has no
handler, so the exception escapes.  The claim fails; totality holds under
a numeric-safety proviso on range conditions.
-/

theorem pyLt_ok_of_num {a b : Value} {p q : ℚ} (ha : toNum? a = some p)
    (hb : toNum? b = some q) : pyLt a b = Except.ok (decide (p < q)) := by
  unfold pyLt
  rw [ha, hb]

theorem pyGt_ok_of_num {a b : Value} {p q : ℚ} (ha : toNum? a = some p)
    (hb : toNum? b = some q) : pyGt a b = Except.ok (decide (q < p)) := by
  unfold pyGt
  rw [ha, hb]

theorem checkMax_ok {mx : Option Value} {v : Value} {qv : ℚ}
    (hv : toNum? v = some qv)
    (hmx : ∀ b, mx = some b → numericValue b = true) :
    ∃ bb, checkMax mx v = Except.ok bb := by
  cases mx with
  | none => exact ⟨true, rfl⟩
  | some b =>
    obtain ⟨qb, hqb⟩ := Option.isSome_iff_exists.mp (hmx b rfl)
    have hgt := pyGt_ok_of_num hv hqb
    cases hdec : decide (qb < qv) with
    | true =>
      refine ⟨false, ?_⟩
      simp [checkMax, hgt, hdec]
    | false =>
      refine ⟨true, ?_⟩
      simp [checkMax, hgt, hdec]

theorem evaluateCondition_ok_of_safe (c : Condition) (v : Value)
    (h : condSafe c v = true) :
    ∃ b, evaluateCondition c v = Except.ok b := by
  by_cases hv : v = Value.vnull
  · exact ⟨false, by simp [evaluateCondition, hv]⟩
  · cases c with
    | lit w => exact ⟨pyEq w v, by simp [evaluateCondition, hv]⟩
    | range mn mx =>
      have hv' : (v == Value.vnull) = false := by simp [hv]
      unfold condSafe at h
      rw [hv'] at h
      simp only [Bool.false_or, Bool.and_assoc, Bool.and_eq_true] at h
      obtain ⟨hnum, hmn, hmx⟩ := h
      obtain ⟨qv, hqv⟩ := Option.isSome_iff_exists.mp hnum
      have hmx' : ∀ b, mx = some b → numericValue b = true := by
        intro b hb
        rw [hb] at hmx
        simpa using hmx
      cases mn with
      | none =>
        obtain ⟨bb, hbb⟩ := checkMax_ok hqv hmx'
        exact ⟨bb, by simp [evaluateCondition, hv, hbb]⟩
      | some bmin =>
        have hbmin : numericValue bmin = true := by simpa using hmn
        obtain ⟨qb, hqb⟩ := Option.isSome_iff_exists.mp hbmin
        have hlt := pyLt_ok_of_num hqv hqb
        obtain ⟨bb, hbb⟩ := checkMax_ok hqv hmx'
        cases hdec : decide (qv < qb) with
        | true =>
          refine ⟨false, ?_⟩
          simp [evaluateCondition, hv, hlt, hdec]
        | false =>
          refine ⟨bb, ?_⟩
          simp [evaluateCondition, hv, hlt, hdec, hbb]

theorem whenMatches_ok_of_safe (ctx : Ctx)
    (l : List (String × Condition))
    (h : ∀ p ∈ l, condSafe p.2 (ctxGet ctx p.1) = true) :
    ∃ b, whenMatches ctx l = Except.ok b := by
  induction l with
  | nil => exact ⟨true, rfl⟩
  | cons p rest ih =>
    obtain ⟨a, c⟩ := p
    obtain ⟨b, hb⟩ :=
      evaluateCondition_ok_of_safe c (ctxGet ctx a)
        (h (a, c) (List.mem_cons_self _ rest))
    cases b with
    | false => exact ⟨false, by simp [whenMatches, hb]⟩
    | true =>
      obtain ⟨b', hb'⟩ := ih (fun q hq => h q (List.mem_cons_of_mem _ hq))
      exact ⟨b', by simp [whenMatches, hb, hb']⟩

/-- Claim C9 (counterexample): a rule with the numeric range condition
`scoring ≥ 4` evaluated on a context where `scoring` holds a string raises
`TypeError` (Python cannot order `str` against `int`), which escapes
`evaluate` — so `evaluate` does NOT return a decision for every context of
string/number/boolean/null values. -/
theorem evaluate_raises_on_string_vs_range :
    evaluate
        { rules := [{ id := some "r1", priority := some 10, whenConds := [("scoring", Condition.range (some (Value.vnum 4)) none)] }] }
        [("scoring", Value.vstr "alto")] = Except.error () := by
  rfl

/-- Claim C9 (amended): `evaluate` returns a decision — never raises —
for every loaded ruleset and every customer context, PROVIDED each range
condition is evaluated against a missing value or a numeric (number or
boolean) value with numeric bounds; "no rule matched" and "info missing"
are first-class results (see the no-match and NEED_INFO theorems), but a
range condition meeting a string value raises `TypeError`. -/
theorem evaluate_total_of_safe (rs : RuleSet) (ctx : Ctx)
    (hsafe : ∀ r ∈ rs.rules, ∀ p ∈ r.whenConds,
      condSafe p.2 (ctxGet ctx p.1) = true) :
    ∃ d, evaluate rs ctx = Except.ok d := by
  cases hfind : rs.required_fields.find?
      (fun f => isMissingValue (ctxGet ctx f)) with
  | some f =>
    exact ⟨Decision.needInfo f (rs.missing_info_behavior.status.getD "NEED_INFO")
      (rs.missing_info_behavior.questions.lookup f), by simp [evaluate, hfind]⟩
  | none =>
    have hok : ∀ x ∈ sortRules rs.rules,
        ∃ b, ruleMatches ctx x = Except.ok b := by
      intro x hx
      exact whenMatches_ok_of_safe ctx x.whenConds
        (hsafe x (mem_sortRules.mp hx))
    obtain ⟨m, hm⟩ := filterMatched_ok_of_all ctx hok
    have hm' : matchedRules rs ctx = Except.ok m := hm
    cases m with
    | nil =>
      exact ⟨Decision.recommendation "no_match" Value.vnull []
        "no_rules_matched" [], by simp [evaluate, hfind, hm']⟩
    | cons r tl =>
      exact ⟨mergeFlags (r :: tl) (Decision.recommendation
        (r.thenClause.decision.getD "unknown")
        (r.thenClause.stop_allowed.getD Value.vnull)
        (r.thenClause.allowed_actions.getD [])
        (r.thenClause.reason.getD ("rule_" ++ r.id.getD "unknown")) []),
        by simp [evaluate, hfind, hm']⟩

/-- Witness for claim C9's amended theorem: a ruleset with a numeric range
rule and a numeric context value. -/
theorem evaluate_total_of_safe_witness :
    ∃ d, evaluate
        { rules := [{ id := some "r1", priority := some 10, whenConds := [("scoring", Condition.range (some (Value.vnum 4)) none)] }] }
        [("scoring", Value.vnum 5)] = Except.ok d :=
  evaluate_total_of_safe
    { rules := [{ id := some "r1", priority := some 10, whenConds := [("scoring", Condition.range (some (Value.vnum 4)) none)] }] }
    [("scoring", Value.vnum 5)]
    (by decide)

/-!
## Claim C7

The claim states the enrichment merger fills a field iff the current value
is missing per the §3 definition — null, `""`, `"null"` OR `"desconocido"`
— whenever the extracted value is non-null and non-empty.  The merge loops
(`backend/main.py` line 120, `api/index.py` line 147) test only
`None`/`""`/`"null"`: a static `"desconocido"` is never replaced.  In
`backend/main.py` the extracted value must moreover be truthy, so the
non-null, non-empty values `0` and `False` are also never merged.  The
claim fails; the characterization below holds.
-/

theorem ctxGet_setKey_self (l : Ctx) (k : String) (v : Value) :
    ctxGet (setKey l k v) k = v := by
  simp [ctxGet, lookup_setKey_self]

theorem ctxGet_setKey_ne (l : Ctx) {a k : String} (v : Value) (h : k ≠ a) :
    ctxGet (setKey l a v) k = ctxGet l k := by
  simp [ctxGet, lookup_setKey_ne l v h]

theorem ctxGet_enrichStep_ne (cond : Value → Bool) (acc : Ctx) {a k : String}
    (w : Value) (h : k ≠ a) :
    ctxGet (enrichStep cond acc a w) k = ctxGet acc k := by
  unfold enrichStep
  by_cases hc : (cond w && mergerMissing (ctxGet acc a)) = true
  · rw [if_pos hc]
    exact ctxGet_setKey_ne acc w h
  · rw [if_neg hc]

theorem enrichLoop_notmissing (cond : Value → Bool) (acc : Ctx)
    (e : List (String × Value)) (k : String)
    (h : mergerMissing (ctxGet acc k) = false) :
    ctxGet (enrichLoop cond acc e) k = ctxGet acc k := by
  induction e generalizing acc with
  | nil => rfl
  | cons p rest ih =>
    obtain ⟨a, w⟩ := p
    show ctxGet (enrichLoop cond (enrichStep cond acc a w) rest) k = _
    by_cases hak : k = a
    · subst hak
      have hstep : enrichStep cond acc k w = acc := by
        unfold enrichStep
        simp [h]
      rw [hstep]
      exact ih acc h
    · have hstep := ctxGet_enrichStep_ne cond acc w hak
      rw [ih (enrichStep cond acc a w) (by rw [hstep]; exact h), hstep]

theorem enrichLoop_notin (cond : Value → Bool) (acc : Ctx)
    (e : List (String × Value)) (k : String)
    (h : k ∉ e.map Prod.fst) :
    ctxGet (enrichLoop cond acc e) k = ctxGet acc k := by
  induction e generalizing acc with
  | nil => rfl
  | cons p rest ih =>
    obtain ⟨a, w⟩ := p
    have hak : k ≠ a := by
      intro he
      exact h (by simp [he])
    have hrest : k ∉ rest.map Prod.fst := by
      intro he
      exact h (by simp [he])
    show ctxGet (enrichLoop cond (enrichStep cond acc a w) rest) k = _
    rw [ih (enrichStep cond acc a w) hrest,
      ctxGet_enrichStep_ne cond acc w hak]

theorem enrichLoop_fill (cond : Value → Bool) (acc : Ctx)
    (e : List (String × Value)) (k : String) (v : Value)
    (hnodup : (e.map Prod.fst).Nodup) (hmem : (k, v) ∈ e)
    (hmiss : mergerMissing (ctxGet acc k) = true) (hcond : cond v = true) :
    ctxGet (enrichLoop cond acc e) k = v := by
  induction e generalizing acc with
  | nil => cases hmem
  | cons p rest ih =>
    obtain ⟨a, w⟩ := p
    have hnodup' : (rest.map Prod.fst).Nodup :=
      (List.nodup_cons.mp (by simpa using hnodup)).2
    have hanotin : a ∉ rest.map Prod.fst :=
      (List.nodup_cons.mp (by simpa using hnodup)).1
    rcases List.mem_cons.mp hmem with heq | hmem'
    · obtain ⟨hka, hvw⟩ := Prod.mk.injEq k v a w ▸ heq
      subst hka
      subst hvw
      have hstep : enrichStep cond acc k v = setKey acc k v := by
        unfold enrichStep
        simp [hcond, hmiss]
      show ctxGet (enrichLoop cond (enrichStep cond acc k v) rest) k = _
      rw [hstep, enrichLoop_notin cond _ rest k hanotin,
        ctxGet_setKey_self]
    · have hak : k ≠ a := by
        intro he
        subst he
        exact hanotin (List.mem_map_of_mem Prod.fst hmem')
      show ctxGet (enrichLoop cond (enrichStep cond acc a w) rest) k = _
      have hstep := ctxGet_enrichStep_ne cond acc w hak
      exact ih (enrichStep cond acc a w) hnodup' hmem' (by rw [hstep]; exact hmiss)

/-- Claim C7 (counterexample): a static field holding the placeholder
`"desconocido"` — missing per §3 — is NOT filled by a non-null, non-empty
extracted value, in either merger variant; and in `backend/main.py` a
missing (null) static field is NOT filled by the non-null, non-empty
extracted value `0`, because the loop tests truthiness. -/
theorem merger_ignores_desconocido :
    isMissingValue (Value.vstr "desconocido") = true ∧
      enrichContext [("plan", Value.vstr "desconocido")]
        [("plan", Value.vstr "Ahorro")] =
        [("plan", Value.vstr "desconocido")] ∧
      enrichContextApi [("plan", Value.vstr "desconocido")]
        [("plan", Value.vstr "Ahorro")] =
        [("plan", Value.vstr "desconocido")] ∧
      enrichContext [("n", Value.vnull)] [("n", Value.vnum 0)] =
        [("n", Value.vnull)] := by
  exact ⟨rfl, rfl, rfl, rfl⟩

/-- Claim C7 (amended): the enrichment mergers produce a new mapping that
starts from the static context and never overwrite a field whose current
value is outside the merge-missing set {null, `""`, `"null"`} — in
particular a static `"desconocido"` is kept; a field inside that set is
always filled with the extracted value when one is available and the
extracted value is truthy (in `backend/main.py`) resp. non-null (in
`api/index.py`). -/
theorem enrich_merger_characterization (s : Ctx)
    (e : List (String × Value)) (hnodup : (e.map Prod.fst).Nodup) :
    (∀ k, mergerMissing (ctxGet s k) = false →
      ctxGet (enrichContext s e) k = ctxGet s k ∧
        ctxGet (enrichContextApi s e) k = ctxGet s k) ∧
    (∀ k v, (k, v) ∈ e → mergerMissing (ctxGet s k) = true →
      (pyTruthy v = true → ctxGet (enrichContext s e) k = v) ∧
        (v ≠ Value.vnull → ctxGet (enrichContextApi s e) k = v)) := by
  constructor
  · intro k hk
    exact ⟨enrichLoop_notmissing pyTruthy s e k hk,
      enrichLoop_notmissing (fun v => !(v == Value.vnull)) s e k hk⟩
  · intro k v hmem hmiss
    constructor
    · intro ht
      exact enrichLoop_fill pyTruthy s e k v hnodup hmem hmiss ht
    · intro hne
      exact enrichLoop_fill (fun v => !(v == Value.vnull)) s e k v hnodup
        hmem hmiss (by simp [hne])

/-- Witness for claim C7's amended theorem: static context with a missing
field `a` and a present field `b`; extraction proposes values for both. -/
theorem enrich_merger_characterization_witness :
    (∀ k, mergerMissing (ctxGet [("a", Value.vnull), ("b", Value.vstr "x")] k) = false →
      ctxGet (enrichContext [("a", Value.vnull), ("b", Value.vstr "x")] [("a", Value.vstr "v"), ("b", Value.vstr "w")]) k =
          ctxGet [("a", Value.vnull), ("b", Value.vstr "x")] k ∧
        ctxGet (enrichContextApi [("a", Value.vnull), ("b", Value.vstr "x")] [("a", Value.vstr "v"), ("b", Value.vstr "w")]) k =
          ctxGet [("a", Value.vnull), ("b", Value.vstr "x")] k) ∧
    (∀ k v, (k, v) ∈ [("a", Value.vstr "v"), ("b", Value.vstr "w")] →
      mergerMissing (ctxGet [("a", Value.vnull), ("b", Value.vstr "x")] k) = true →
      (pyTruthy v = true →
        ctxGet (enrichContext [("a", Value.vnull), ("b", Value.vstr "x")] [("a", Value.vstr "v"), ("b", Value.vstr "w")]) k = v) ∧
        (v ≠ Value.vnull →
          ctxGet (enrichContextApi [("a", Value.vnull), ("b", Value.vstr "x")] [("a", Value.vstr "v"), ("b", Value.vstr "w")]) k = v)) :=
  enrich_merger_characterization
    [("a", Value.vnull), ("b", Value.vstr "x")]
    [("a", Value.vstr "v"), ("b", Value.vstr "w")]
    (by decide)

/-!
## Claim C8

The claim quantifies over every request whose classification yields
process `"UNKNOWN"` or confidence < 0.30 and asserts terminal state
UNKNOWN.  But the SOCIAL branch is tested first (`backend/main.py`
line 124): a classification `("SOCIAL", 0.25)` has confidence < 0.30 yet
terminates in state SOCIAL, not UNKNOWN.  The claim fails as stated; it
holds for non-SOCIAL processes, and confidence exactly 0.30 does proceed
to rule evaluation.
-/

/-- Claim C8 (counterexample): a request classified `("SOCIAL", 0.25)` has
confidence strictly below 0.30, yet the pipeline terminates in state
SOCIAL with the social payload — not in state UNKNOWN. -/
theorem pipeline_social_low_confidence_not_unknown :
    ((1 : ℚ)/4 < 3/10) ∧
      analyze (fun _ => none) (fun _ _ => []) ["hola"]
          [("plan", Value.vstr "x")]
          { process := "SOCIAL", confidence := 1/4, extracted_data := [] } =
        AnalyzeResult.ok ⟨"SOCIAL", "SOCIAL", 1/4,
          RulesPayload.message "SOCIAL" "Conversación social detectada",
          none, [("plan", Value.vstr "x")]⟩ := by
  constructor
  · norm_num
  · rfl

/-- Claim C8 (amended): for every request with non-empty messages and
context whose classification yields a NON-SOCIAL process that is
`"UNKNOWN"` or has confidence strictly below 0.30, the pipeline reaches
terminal state UNKNOWN with the fixed awaiting-business-request payload
and no recommendation, independently of the rule files and specialist
(no RuleSet is loaded, no rule evaluated); and a confidence exactly 0.30
with a non-SOCIAL, non-UNKNOWN process proceeds to rule evaluation, whose
decision shapes the response. -/
theorem pipeline_unknown_state (rulesets : String → Option RuleSet)
    (sp : Ctx → Decision → List (String × Value))
    (messages : List String) (cc : Ctx) (det : Detection)
    (hmsg : messages ≠ []) (hcc : cc ≠ [])
    (hsoc : det.process ≠ "SOCIAL") :
    ((det.process = "UNKNOWN" ∨ det.confidence < 3/10) →
      analyze rulesets sp messages cc det =
        AnalyzeResult.ok ⟨"UNKNOWN", "UNKNOWN", det.confidence,
          RulesPayload.message "UNKNOWN" "Esperando solicitud de negocio...",
          none, enrichContext cc det.extracted_data⟩) ∧
    (∀ rs d, det.process ≠ "UNKNOWN" → det.confidence = 3/10 →
      rulesets det.process = some rs →
      evaluate rs (enrichContext cc det.extracted_data) = Except.ok d →
      d.status = "NEED_INFO" →
      analyze rulesets sp messages cc det =
        AnalyzeResult.ok ⟨"NEED_INFO", det.process, det.confidence,
          RulesPayload.engine d, none,
          enrichContext cc det.extracted_data⟩) := by
  constructor
  · intro h
    simp [analyze, hmsg, hcc, hsoc, h]
  · intro rs d hunk hconf hrs heval hst
    have hnotlt : ¬(det.process = "UNKNOWN" ∨ det.confidence < 3/10) := by
      rintro (h1 | h2)
      · exact hunk h1
      · rw [hconf] at h2
        exact lt_irrefl _ h2
    simp [analyze, hmsg, hcc, hsoc, hnotlt, hrs, heval, hst]

/-- Witness for claim C8's amended theorem: classification
`("STOP_REPARTO", 0.2)` terminates in state UNKNOWN with the fixed
payload, with no rules file even available. -/
theorem pipeline_unknown_state_witness :
    analyze (fun _ => none) (fun _ _ => []) ["hola"]
        [("plan", Value.vstr "x")]
        { process := "STOP_REPARTO", confidence := 1/5, extracted_data := [] } =
      AnalyzeResult.ok ⟨"UNKNOWN", "UNKNOWN", 1/5,
        RulesPayload.message "UNKNOWN" "Esperando solicitud de negocio...",
        none, enrichContext [("plan", Value.vstr "x")] []⟩ :=
  (pipeline_unknown_state (fun _ => none) (fun _ _ => []) ["hola"]
    [("plan", Value.vstr "x")]
    { process := "STOP_REPARTO", confidence := 1/5, extracted_data := [] }
    (by decide) (by decide) (by decide)).1
    (Or.inr (by norm_num))

end Copilot
